import Mathlib

/-!
Shallow embedding of the document-diff core of `src/app.py`:
the element normalizer (`extract_text_from_item`), the text span differ
(`compare_text_content`, built on Python's `difflib.SequenceMatcher`),
the table comparator (`compare_tables`) and the structural diff engine
(`diff_content`).
-/

namespace App

/-! ## Data model (Google-Docs-like wire shapes, §3/§6 of the spec) -/

/-- Wire shape `{ textRun: { content: string } }`. -/
structure TextRun where
  content : String
deriving DecidableEq

/-- One element of a paragraph's `elements` list; the `textRun` key may be absent. -/
structure ParElement where
  textRun : Option TextRun
deriving DecidableEq

/-- Wire shape `{ paragraphStyle: { namedStyleType: string } }`; the key may be absent. -/
structure ParagraphStyle where
  namedStyleType : Option String
deriving DecidableEq

/-- A paragraph node: optional `elements` list and optional `paragraphStyle`. -/
structure ParagraphNode where
  elements : Option (List ParElement)
  paragraphStyle : Option ParagraphStyle
deriving DecidableEq

/-- One item of a table cell's `content` list; the `paragraph` key may be absent. -/
structure CellItem where
  paragraph : Option ParagraphNode
deriving DecidableEq

/-- A table cell: wire shape `{ content: [ { paragraph?: ... } ] }`; `content` may be absent. -/
structure TableCell where
  content : Option (List CellItem)
deriving DecidableEq

/-- A table row: wire shape `{ tableCells: [...] }`. -/
structure TableRow where
  tableCells : List TableCell
deriving DecidableEq

/-- A table node: wire shape `{ tableRows: [...] }`. -/
structure TableNode where
  tableRows : List TableRow
deriving DecidableEq

/-- A document item: a node carrying a `paragraph` key and/or a `table` key
(Python duck-types with `"paragraph" in item`). -/
structure DocumentItem where
  paragraph : Option ParagraphNode
  table : Option TableNode
deriving DecidableEq

/-! ## Element normalizer (`extract_text_from_item`, src/app.py lines 18-40) -/

/-- Python `str.strip()`: drop leading and trailing whitespace characters. -/
def strip (s : String) : String :=
  String.mk (((s.data.dropWhile Char.isWhitespace).reverse.dropWhile Char.isWhitespace).reverse)

/-- The concatenation, in order, of `element["textRun"]["content"]` over a paragraph's
`elements` list, skipping elements without a `textRun` key (the accumulation loop at
src/app.py lines 22-25). -/
def elements_text (elems : List ParElement) : String :=
  elems.foldl (fun acc e =>
    acc ++ (match e.textRun with
            | some tr => tr.content
            | none => "")) ""

/-- Result of `extract_text_from_item`: the processed dict, either
`{"type": "paragraph", "text", "style", "original"}` or
`{"type": "table", "data", "original"}`. -/
inductive Extracted where
  | paragraph (text style : String) (original : DocumentItem)
  | table (data : TableNode) (original : DocumentItem)
deriving DecidableEq

/-- The `"type"` field of a processed dict. -/
def etype : Extracted → String
  | .paragraph _ _ _ => "paragraph"
  | .table _ _ => "table"

/-- Embedding of `extract_text_from_item` (src/app.py lines 18-40): the `paragraph` branch is tried
first (and, being an `if`/`elif`, shadows the `table` branch); inside it, a missing
`elements` key or a whitespace-only concatenation falls through to `return None`. -/
def extract_text_from_item (item : DocumentItem) : Option Extracted :=
  match item.paragraph with
  | some p =>
    match p.elements with
    | some elems =>
      let text := elements_text elems
      if strip text = "" then none
      else
        some (Extracted.paragraph (strip text)
          ((p.paragraphStyle.bind ParagraphStyle.namedStyleType).getD "NORMAL_TEXT") item)
    | none => none
  | none =>
    match item.table with
    | some t => some (Extracted.table t item)
    | none => none

/-! ## Table comparator (`compare_tables`, src/app.py lines 78-128) -/

/-- The text of one table cell: concatenation of all `textRun` contents across every
paragraph of the cell's `content` list (src/app.py lines 91-106); a missing or empty
`content`, `paragraph` or `elements` contributes nothing. -/
def cell_text (cell : TableCell) : String :=
  (cell.content.getD []).foldl (fun acc ci =>
    match ci.paragraph with
    | some p =>
      (p.elements.getD []).foldl (fun a e =>
        a ++ (match e.textRun with
              | some tr => tr.content
              | none => "")) acc
    | none => acc) ""

/-- One record returned by `compare_tables`: either
`{"type": "structure", "message": ...}` or
`{"type": "removed"/"added", "content": {"type": "table", "text", "location"}}`. -/
inductive TableDiff where
  | struct (message : String)
  | removed (text : String) (row cell : Nat)
  | added (text : String) (row cell : Nat)
deriving DecidableEq

/-- The `"type"` field of a `compare_tables` record. -/
def tdtype : TableDiff → String
  | .struct _ => "structure"
  | .removed _ _ _ => "removed"
  | .added _ _ _ => "added"

/-- The lockstep cell loop of `compare_tables` (src/app.py lines 90-126), carrying the
enumeration index `cell_idx`; appends a `removed` record when `text1` is non-empty and
an `added` record when `text2` is non-empty, in that order, whenever the texts differ. -/
def cells_loop (row_idx : Nat) : Nat → List (TableCell × TableCell) → List TableDiff
  | _, [] => []
  | cell_idx, (cell1, cell2) :: rest =>
    (let text1 := cell_text cell1
     let text2 := cell_text cell2
     if text1 ≠ text2 then
       (if text1 ≠ "" then [TableDiff.removed text1 row_idx cell_idx] else [])
         ++ (if text2 ≠ "" then [TableDiff.added text2 row_idx cell_idx] else [])
     else [])
      ++ cells_loop row_idx (cell_idx + 1) rest

/-- The lockstep row loop of `compare_tables` (src/app.py lines 85-126), carrying the
enumeration index `row_idx`; a cell-count mismatch appends one `structure` record and
skips (`continue`) the cell comparison for that row. -/
def rows_loop : Nat → List (TableRow × TableRow) → List TableDiff
  | _, [] => []
  | row_idx, (row1, row2) :: rest =>
    (if row1.tableCells.length ≠ row2.tableCells.length then
       [TableDiff.struct ("Different number of cells in row " ++ toString row_idx)]
     else cells_loop row_idx 0 (List.zip row1.tableCells row2.tableCells))
      ++ rows_loop (row_idx + 1) rest

/-- Embedding of `compare_tables` (src/app.py lines 78-128). -/
def compare_tables (table1 table2 : TableNode) : List TableDiff :=
  if table1.tableRows.length ≠ table2.tableRows.length then
    [TableDiff.struct "Different number of rows"]
  else rows_loop 0 (List.zip table1.tableRows table2.tableRows)

/-! ## Text span differ (`compare_text_content`, src/app.py lines 42-76)

The differ delegates the opcode computation to Python's
`difflib.SequenceMatcher(None, text1, text2).get_opcodes()`, an external
dependency whose source is not part of this repository. The definitions below
model it; the spec describes the contract (§4.2): a longest-common-subsequence
style alignment producing an ordered partition of both strings into
`equal`/`insert`/`delete`/`replace` runs with half-open ranges. We follow
`difflib`'s documented algorithm with `isjunk=None`; the `autojunk` popularity
heuristic (which only alters matching when the second string has at least 200
characters) is not modelled. -/

/-- Length of the longest common prefix of two character lists. -/
def matchLen : List Char → List Char → Nat
  | a :: as, b :: bs => if a = b then matchLen as bs + 1 else 0
  | _, _ => 0

/-- All candidate matches `(i, j, k)`: start `i` in `a`, start `j` in `b`, and the
length `k` of the common run starting there, enumerated in ascending `i`, then `j`. -/
def flmCands (a b : List Char) : List (Nat × Nat × Nat) :=
  (List.range a.length).flatMap (fun i =>
    (List.range b.length).map (fun j => (i, j, matchLen (a.drop i) (b.drop j))))

/-- Keep the incumbent unless the candidate is strictly longer: with candidates
enumerated in ascending `i` then `j`, ties go to the earliest start in `a`, then the
earliest start in `b` — `difflib.SequenceMatcher.find_longest_match`'s tie rule. -/
def flmPick (best c : Nat × Nat × Nat) : Nat × Nat × Nat :=
  if c.2.2 > best.2.2 then c else best

/-- Model of `find_longest_match` over one window, given as two character-list slices; returns
`(i, j, k)` relative to the slices, `(0, 0, 0)` when nothing matches. -/
def find_longest_match (a b : List Char) : Nat × Nat × Nat :=
  (flmCands a b).foldl flmPick (0, 0, 0)

/-- The recursive block collection of `get_matching_blocks`: find the longest match of
the window, then recurse on the parts left and right of it; `alo`, `blo` translate
window-relative starts back to absolute positions. The fuel only bounds recursion
depth; `a.length + b.length + 1` always suffices. -/
def mblocks : Nat → List Char → List Char → Nat → Nat → List (Nat × Nat × Nat)
  | 0, _, _, _, _ => []
  | fuel + 1, a, b, alo, blo =>
    let m := find_longest_match a b
    if m.2.2 = 0 then []
    else
      mblocks fuel (a.take m.1) (b.take m.2.1) alo blo
        ++ [(alo + m.1, blo + m.2.1, m.2.2)]
        ++ mblocks fuel (a.drop (m.1 + m.2.2)) (b.drop (m.2.1 + m.2.2))
            (alo + m.1 + m.2.2) (blo + m.2.1 + m.2.2)

/-- The adjacency-merging sweep of `get_matching_blocks`: a block that starts exactly
where the incumbent ends extends it; a non-empty incumbent is flushed otherwise. -/
def merge_loop : Nat × Nat × Nat → List (Nat × Nat × Nat) → List (Nat × Nat × Nat)
  | (i1, j1, k1), [] => if k1 ≠ 0 then [(i1, j1, k1)] else []
  | (i1, j1, k1), (i2, j2, k2) :: rest =>
    if i1 + k1 = i2 ∧ j1 + k1 = j2 then merge_loop (i1, j1, k1 + k2) rest
    else (if k1 ≠ 0 then [(i1, j1, k1)] else []) ++ merge_loop (i2, j2, k2) rest

/-- Model of `SequenceMatcher.get_matching_blocks`: merged blocks followed by the terminating
sentinel `(len(a), len(b), 0)`. -/
def get_matching_blocks (a b : List Char) : List (Nat × Nat × Nat) :=
  merge_loop (0, 0, 0) (mblocks (a.length + b.length + 1) a b 0 0)
    ++ [(a.length, b.length, 0)]

/-- The four opcode tags of `SequenceMatcher.get_opcodes`. -/
inductive OpTag where
  | replace
  | delete
  | insert
  | equal
deriving DecidableEq

/-- The opcode sweep of `get_opcodes`: walking the matching blocks with cursors `i`, `j`,
the gap before each block is tagged `replace`/`delete`/`insert`, and each non-empty
block itself is tagged `equal`. Opcodes are `(tag, i1, i2, j1, j2)`. -/
def opcodes_loop : Nat → Nat → List (Nat × Nat × Nat) → List (OpTag × Nat × Nat × Nat × Nat)
  | _, _, [] => []
  | i, j, (ai, bj, size) :: rest =>
    (if i < ai ∧ j < bj then [(OpTag.replace, i, ai, j, bj)]
     else if i < ai then [(OpTag.delete, i, ai, j, bj)]
     else if j < bj then [(OpTag.insert, i, ai, j, bj)]
     else [])
      ++ (if size ≠ 0 then [(OpTag.equal, ai, ai + size, bj, bj + size)] else [])
      ++ opcodes_loop (ai + size) (bj + size) rest

/-- Model of `SequenceMatcher(None, a, b).get_opcodes()`. -/
def get_opcodes (a b : List Char) : List (OpTag × Nat × Nat × Nat × Nat) :=
  opcodes_loop 0 0 (get_matching_blocks a b)

/-- Python slice `s[i1:i2]` on a string. -/
def strSlice (s : String) (i1 i2 : Nat) : String :=
  String.mk ((s.data.drop i1).take (i2 - i1))

/-- One record of the `compare_text_content` output:
`{"type": "removed"/"added", "text", "fullText", "range"}`. -/
structure SpanRec where
  rtype : String
  text : String
  fullText : String
  range : Nat × Nat
deriving DecidableEq

/-- The emission loop of `compare_text_content` (src/app.py lines 47-74): `delete` run
appends one removed record, `insert` one added record, `replace` a removed record then
an added record, `equal` nothing. -/
def ctc_loop (text1 text2 : String) : List (OpTag × Nat × Nat × Nat × Nat) → List SpanRec
  | [] => []
  | (op, i1, i2, j1, j2) :: rest =>
    (match op with
     | OpTag.delete => [⟨"removed", strSlice text1 i1 i2, text1, (i1, i2)⟩]
     | OpTag.insert => [⟨"added", strSlice text2 j1 j2, text2, (j1, j2)⟩]
     | OpTag.replace =>
       [⟨"removed", strSlice text1 i1 i2, text1, (i1, i2)⟩,
        ⟨"added", strSlice text2 j1 j2, text2, (j1, j2)⟩]
     | OpTag.equal => [])
      ++ ctc_loop text1 text2 rest

/-- Embedding of `compare_text_content` (src/app.py lines 42-76). -/
def compare_text_content (text1 text2 : String) : List SpanRec :=
  ctc_loop text1 text2 (get_opcodes text1.data text2.data)

/-! ## Structural diff engine (`diff_content`, src/app.py lines 130-203) -/

/-- The `"content"` payload of a `diff_content` record: either a processed dict, or the
wrapper `{"type": "table", "data": <table diff>, "original": <item>}` built at
src/app.py lines 162-169. -/
inductive DContent where
  | extracted (e : Extracted)
  | tableData (data : TableDiff) (original : DocumentItem)
deriving DecidableEq

/-- One record of the `diff_content` output: `{"type": ..., "content": ...}`. -/
structure DiffRecord where
  rtype : String
  content : DContent
deriving DecidableEq

/-- The inner scan of the forward pass (src/app.py lines 141-171): the first item of
`content2` whose extraction is non-`None` and has the wanted `"type"`; items that fail
either test are skipped, and the loop `break`s at the first hit. -/
def find_first_match (t : String) : List DocumentItem → Option Extracted
  | [] => none
  | item2 :: rest =>
    match extract_text_from_item item2 with
    | none => find_first_match t rest
    | some p2 => if etype p2 = t then some p2 else find_first_match t rest

/-- The records the forward pass emits for one `content1` item (src/app.py lines
134-177): paragraph-vs-paragraph emits removed+added when texts differ; table-vs-table
wraps each `compare_tables` record, attaching `item1` as `original` for `removed`
records and `item2` otherwise; no same-type match emits a single removed record. -/
def forward_item (content2 : List DocumentItem) (item1 : DocumentItem) : List DiffRecord :=
  match extract_text_from_item item1 with
  | none => []
  | some p1 =>
    match find_first_match (etype p1) content2 with
    | none => [⟨"removed", DContent.extracted p1⟩]
    | some p2 =>
      match p1, p2 with
      | .paragraph t1 s1 o1, .paragraph t2 s2 o2 =>
        if t1 ≠ t2 then
          [⟨"removed", DContent.extracted (.paragraph t1 s1 o1)⟩,
           ⟨"added", DContent.extracted (.paragraph t2 s2 o2)⟩]
        else []
      | .table d1 o1, .table d2 o2 =>
        (compare_tables d1 d2).map (fun d =>
          ⟨tdtype d, DContent.tableData d (if tdtype d = "removed" then o1 else o2)⟩)
      | _, _ => []

/-- The backward pass's presence test (src/app.py lines 184-195): some `content1` item
extracts to the same `"type"`, with byte-identical text for paragraphs, or with an
equal `tableRows` count for tables. -/
def found_in_content1 (content1 : List DocumentItem) (p2 : Extracted) : Bool :=
  content1.any (fun item1 =>
    match extract_text_from_item item1, p2 with
    | some (.paragraph t1 _ _), .paragraph t2 _ _ => t1 == t2
    | some (.table d1 _), .table d2 _ => d1.tableRows.length == d2.tableRows.length
    | _, _ => false)

/-- The records the backward pass emits for one `content2` item (src/app.py lines
179-201): an `added` record exactly when the item extracts and is not found in
`content1`. -/
def backward_item (content1 : List DocumentItem) (item2 : DocumentItem) : List DiffRecord :=
  match extract_text_from_item item2 with
  | none => []
  | some p2 =>
    if found_in_content1 content1 p2 then [] else [⟨"added", DContent.extracted p2⟩]

/-- Embedding of `diff_content` (src/app.py lines 130-203): all forward-pass records in `content1`
order, then all backward-pass records in `content2` order. -/
def diff_content (content1 content2 : List DocumentItem) : List DiffRecord :=
  content1.flatMap (forward_item content2) ++ content2.flatMap (backward_item content1)

/-! ## Concrete inputs used by the scenario claims -/

/-- A document item holding a single-run paragraph with the given content. -/
def parItem (s : String) : DocumentItem :=
  ⟨some ⟨some [⟨some ⟨s⟩⟩], none⟩, none⟩

/-- Scenario 2 input item `Paragraph("Hello")`. -/
def helloItem : DocumentItem := parItem "Hello"

/-- Scenario 2 input item `Paragraph("World")`. -/
def worldItem : DocumentItem := parItem "World"

/-- A table cell with no `content` key (text normalizes to `""`). -/
def emptyCell : TableCell := ⟨none⟩

/-- A row of one empty cell. -/
def oneCellRow : TableRow := ⟨[emptyCell]⟩

/-- The 2-row, 1-column table of Scenario 3. -/
def table2x1 : TableNode := ⟨[oneCellRow, oneCellRow]⟩

/-- The 3-row, 1-column table of Scenario 3. -/
def table3x1 : TableNode := ⟨[oneCellRow, oneCellRow, oneCellRow]⟩

/-- The Scenario-3 document item holding `table2x1`. -/
def tableItem2 : DocumentItem := ⟨none, some table2x1⟩

/-- The Scenario-3 document item holding `table3x1`. -/
def tableItem3 : DocumentItem := ⟨none, some table3x1⟩

/-- A table cell whose single paragraph holds one text run with the given content. -/
def textCell (s : String) : TableCell :=
  ⟨some [⟨some ⟨some [⟨some ⟨s⟩⟩], none⟩⟩]⟩

/-- A 1x1 table whose only cell reads "X" (Scenario 5 shape). -/
def tableX : TableNode := ⟨[⟨[textCell "X"]⟩]⟩

/-- A 1x1 table whose only cell reads "Y" (Scenario 5 shape). -/
def tableY : TableNode := ⟨[⟨[textCell "Y"]⟩]⟩

/-! ## Helper lemmas -/

/-- Every `compare_tables` record carries one of the three `"type"` strings. -/
theorem tdtype_cases (d : TableDiff) :
    tdtype d = "removed" ∨ tdtype d = "added" ∨ tdtype d = "structure" := by
  cases d <;> simp [tdtype]

/-- The cell loop only emits `removed` and `added` records. -/
theorem cells_loop_rtype (ri : Nat) (ci : Nat) (ps : List (TableCell × TableCell)) :
    ∀ d ∈ cells_loop ri ci ps, tdtype d = "removed" ∨ tdtype d = "added" := by
  induction ps generalizing ci with
  | nil => simp [cells_loop]
  | cons p rest ih =>
    obtain ⟨c1, c2⟩ := p
    intro d hd
    simp only [cells_loop, List.mem_append] at hd
    rcases hd with hd | hd
    · split at hd
      · rcases List.mem_append.mp hd with hd | hd <;> split at hd <;>
          simp_all [tdtype]
      · simp at hd
    · exact ih _ d hd

/-- When every zipped row pair has equal cell counts, the row loop emits no
`structure` record. -/
theorem rows_loop_no_struct (ri : Nat) (ps : List (TableRow × TableRow))
    (h : ∀ p ∈ ps, p.1.tableCells.length = p.2.tableCells.length) :
    ∀ d ∈ rows_loop ri ps, tdtype d ≠ "structure" := by
  induction ps generalizing ri with
  | nil => simp [rows_loop]
  | cons p rest ih =>
    obtain ⟨r1, r2⟩ := p
    intro d hd
    simp only [rows_loop, List.mem_append] at hd
    rcases hd with hd | hd
    · rw [if_neg (by simpa using h (r1, r2) (by simp))] at hd
      rcases cells_loop_rtype ri 0 _ d hd with h' | h' <;> simp [h']
    · exact ih (ri + 1) (fun p hp => h p (List.mem_cons_of_mem _ hp)) d hd

/-- Diffing a zipped list of identical cells emits nothing. -/
theorem cells_loop_self (ri : Nat) (ci : Nat) (cs : List TableCell) :
    cells_loop ri ci (List.zip cs cs) = [] := by
  induction cs generalizing ci with
  | nil => rfl
  | cons c rest ih =>
    rw [List.zip_cons_cons]
    simp only [cells_loop]
    rw [if_neg (by simp), List.nil_append]
    exact ih (ci + 1)

/-- Diffing a zipped list of identical rows emits nothing. -/
theorem rows_loop_self (ri : Nat) (rs : List TableRow) :
    rows_loop ri (List.zip rs rs) = [] := by
  induction rs generalizing ri with
  | nil => rfl
  | cons r rest ih =>
    rw [List.zip_cons_cons]
    simp only [rows_loop]
    rw [if_neg (by simp), cells_loop_self, List.nil_append]
    exact ih (ri + 1)

/-- Comparing a table with itself emits nothing. -/
theorem compare_tables_self (t : TableNode) : compare_tables t t = [] := by
  simp [compare_tables, rows_loop_self]

/-- Anything `find_first_match` returns was extracted from a scanned item and has the
wanted type. -/
theorem find_first_match_sound (t : String) (l : List DocumentItem) (q : Extracted)
    (h : find_first_match t l = some q) :
    ∃ item ∈ l, extract_text_from_item item = some q ∧ etype q = t := by
  induction l with
  | nil => simp [find_first_match] at h
  | cons item rest ih =>
    cases hex : extract_text_from_item item with
    | none =>
      simp only [find_first_match, hex] at h
      obtain ⟨it, hmem, h1, h2⟩ := ih h
      exact ⟨it, List.mem_cons_of_mem _ hmem, h1, h2⟩
    | some p =>
      by_cases het : etype p = t
      · simp only [find_first_match, hex, if_pos het] at h
        obtain rfl : p = q := by simpa using h
        exact ⟨item, List.mem_cons_self _ _, hex, het⟩
      · simp only [find_first_match, hex, if_neg het] at h
        obtain ⟨it, hmem, h1, h2⟩ := ih h
        exact ⟨it, List.mem_cons_of_mem _ hmem, h1, h2⟩

/-- Completeness: `find_first_match` succeeds whenever some scanned item extracts to the wanted
type. -/
theorem find_first_match_complete (t : String) (l : List DocumentItem)
    (item : DocumentItem) (p : Extracted) (hmem : item ∈ l)
    (hex : extract_text_from_item item = some p) (het : etype p = t) :
    ∃ q, find_first_match t l = some q := by
  induction l with
  | nil => simp at hmem
  | cons hd rest ih =>
    cases hhd : extract_text_from_item hd with
    | none =>
      rcases List.mem_cons.mp hmem with rfl | hmem'
      · rw [hhd] at hex; simp at hex
      · obtain ⟨q, hq⟩ := ih hmem'
        exact ⟨q, by simp only [find_first_match, hhd]; exact hq⟩
    | some ph =>
      by_cases hty : etype ph = t
      · exact ⟨ph, by simp only [find_first_match, hhd, if_pos hty]⟩
      · rcases List.mem_cons.mp hmem with rfl | hmem'
        · rw [hhd] at hex
          obtain rfl : ph = p := by simpa using hex
          exact absurd het hty
        · obtain ⟨q, hq⟩ := ih hmem'
          exact ⟨q, by simp only [find_first_match, hhd, if_neg hty]; exact hq⟩

/-- Every record the forward pass emits for one item carries one of the three
`"type"` strings. -/
theorem forward_item_rtype (c2 : List DocumentItem) (item : DocumentItem) :
    ∀ r ∈ forward_item c2 item,
      r.rtype = "removed" ∨ r.rtype = "added" ∨ r.rtype = "structure" := by
  intro r hr
  cases h1 : extract_text_from_item item with
  | none => simp [forward_item, h1] at hr
  | some p1 =>
    cases h2 : find_first_match (etype p1) c2 with
    | none =>
      simp only [forward_item, h1, h2] at hr
      obtain rfl : r = ⟨"removed", DContent.extracted p1⟩ := by simpa using hr
      left; rfl
    | some p2 =>
      cases p1 with
      | paragraph t1 s1 o1 =>
        cases p2 with
        | paragraph t2 s2 o2 =>
          simp only [forward_item, h1, h2] at hr
          by_cases ht : t1 ≠ t2
          · rw [if_pos ht] at hr
            rcases (by simpa using hr :
                r = (⟨"removed", DContent.extracted (.paragraph t1 s1 o1)⟩ : DiffRecord) ∨
                r = ⟨"added", DContent.extracted (.paragraph t2 s2 o2)⟩) with rfl | rfl
            · left; rfl
            · right; left; rfl
          · rw [if_neg ht] at hr
            simp at hr
        | table d2 o2 => simp [forward_item, h1, h2] at hr
      | table d1 o1 =>
        cases p2 with
        | paragraph t2 s2 o2 => simp [forward_item, h1, h2] at hr
        | table d2 o2 =>
          simp only [forward_item, h1, h2, List.mem_map] at hr
          obtain ⟨d, _, rfl⟩ := hr
          exact tdtype_cases d

/-! ## Claim theorems -/

/-- Claim C8: for every document item with a `paragraph` field, normalization
concatenates every textRun `content` in order, strips the result, drops the item when
the stripped text is empty, and otherwise yields a paragraph whose text is the stripped
string and whose style is the `namedStyleType` or `"NORMAL_TEXT"` when absent; an item
with neither a `paragraph` nor a `table` field normalizes to nothing. -/
theorem extract_paragraph_normalization (item : DocumentItem) :
    (∀ p, item.paragraph = some p →
      extract_text_from_item item =
        (if strip (elements_text (p.elements.getD [])) = "" then none
         else some (Extracted.paragraph (strip (elements_text (p.elements.getD [])))
           ((p.paragraphStyle.bind ParagraphStyle.namedStyleType).getD "NORMAL_TEXT")
           item))) ∧
    (item.paragraph = none → item.table = none → extract_text_from_item item = none) := by
  constructor
  · intro p hp
    cases he : p.elements with
    | none => simp [extract_text_from_item, hp, he, elements_text, strip]
    | some es => simp [extract_text_from_item, hp, he]
  · intro h1 h2
    simp [extract_text_from_item, h1, h2]

/-- Claim C8 witness: a padded one-run paragraph normalizes to its stripped text with
the default style, and an item with neither field normalizes to nothing. -/
theorem extract_paragraph_normalization_witness :
    extract_text_from_item (parItem " Hello ") =
      some (Extracted.paragraph "Hello" "NORMAL_TEXT" (parItem " Hello ")) ∧
    extract_text_from_item ⟨none, none⟩ = none := by
  constructor
  · have h := (extract_paragraph_normalization (parItem " Hello ")).1
      ⟨some [⟨some ⟨" Hello "⟩⟩], none⟩ rfl
    rw [h]
    decide
  · exact (extract_paragraph_normalization ⟨none, none⟩).2 rfl rfl

/-- Claim C9: the paragraph branch shadows the table branch — an item whose paragraph
has no `elements` key, or whose concatenated text strips to empty, normalizes to
nothing even when the item also carries a `table` field. -/
theorem paragraph_shadows_table (item : DocumentItem) (p : ParagraphNode) (t : TableNode)
    (hp : item.paragraph = some p) (ht : item.table = some t)
    (h : p.elements = none ∨ strip (elements_text (p.elements.getD [])) = "") :
    extract_text_from_item item = none := by
  rcases h with h | h
  · simp [extract_text_from_item, hp, h]
  · cases he : p.elements with
    | none => simp [extract_text_from_item, hp, he]
    | some es =>
      rw [he] at h
      simp only [Option.getD_some] at h
      simp [extract_text_from_item, hp, he, h]

/-- Claim C9 witness: an item carrying both an elements-less paragraph and a table
normalizes to nothing. -/
theorem paragraph_shadows_table_witness :
    extract_text_from_item ⟨some ⟨none, none⟩, some table2x1⟩ = none :=
  paragraph_shadows_table ⟨some ⟨none, none⟩, some table2x1⟩ ⟨none, none⟩ table2x1
    rfl rfl (Or.inl rfl)

/-- Claim C10: every record `diff_content` emits — forward pass, backward pass or
wrapped table comparator record — has a top-level `"type"` equal to `"removed"`,
`"added"` or `"structure"`. -/
theorem diff_content_rtype_invariant (content1 content2 : List DocumentItem) :
    ∀ r ∈ diff_content content1 content2,
      r.rtype = "removed" ∨ r.rtype = "added" ∨ r.rtype = "structure" := by
  intro r hr
  rcases List.mem_append.mp hr with hr | hr
  · obtain ⟨item, _, hr⟩ := List.mem_flatMap.mp hr
    exact forward_item_rtype content2 item r hr
  · obtain ⟨item, _, hr⟩ := List.mem_flatMap.mp hr
    cases h1 : extract_text_from_item item with
    | none => simp [backward_item, h1] at hr
    | some p2 =>
      simp only [backward_item, h1] at hr
      split at hr
      · simp at hr
      · obtain rfl : r = ⟨"added", DContent.extracted p2⟩ := by simpa using hr
        right; left; rfl

/-- Claim C10 witness: the first record of the Scenario-2 output carries one of the
three type strings. -/
theorem diff_content_rtype_invariant_witness :
    DiffRecord.rtype
        ⟨"removed", DContent.extracted (.paragraph "Hello" "NORMAL_TEXT" helloItem)⟩ =
        "removed" ∨
      DiffRecord.rtype
        ⟨"removed", DContent.extracted (.paragraph "Hello" "NORMAL_TEXT" helloItem)⟩ =
        "added" ∨
      DiffRecord.rtype
        ⟨"removed", DContent.extracted (.paragraph "Hello" "NORMAL_TEXT" helloItem)⟩ =
        "structure" :=
  diff_content_rtype_invariant [helloItem] [worldItem] _ (by decide)

/-- Claim C1 counterexample: on Scenario 2's inputs, `diff_content` does NOT return
just the two records `[removed Paragraph("Hello"), added Paragraph("World")]` — the
backward pass appends a duplicate added record. -/
theorem scenario2_two_records_false :
    diff_content [helloItem] [worldItem] ≠
      [⟨"removed", DContent.extracted (.paragraph "Hello" "NORMAL_TEXT" helloItem)⟩,
       ⟨"added", DContent.extracted (.paragraph "World" "NORMAL_TEXT" worldItem)⟩] := by
  decide

/-- Claim C1 as amended: on Scenario 2's inputs, `diff_content` returns the removed
record for `Paragraph("Hello")` and the added record for `Paragraph("World")` in that
order, followed by a third record — a duplicate of the added record — contributed by
the backward pass, because no content1 paragraph has text byte-identical to
`"World"`. -/
theorem scenario2_actual_output :
    diff_content [helloItem] [worldItem] =
      [⟨"removed", DContent.extracted (.paragraph "Hello" "NORMAL_TEXT" helloItem)⟩,
       ⟨"added", DContent.extracted (.paragraph "World" "NORMAL_TEXT" worldItem)⟩,
       ⟨"added", DContent.extracted (.paragraph "World" "NORMAL_TEXT" worldItem)⟩] := by
  decide

/-- Claim C3 counterexample: on Scenario 3's inputs (a 2x1 table vs a 3x1 table),
`diff_content` does NOT return only the single wrapped structure record — the backward
pass appends an added record as well. -/
theorem scenario3_single_record_false :
    diff_content [tableItem2] [tableItem3] ≠
      [⟨"structure",
        DContent.tableData (.struct "Different number of rows") tableItem3⟩] := by
  decide

/-- Claim C3 as amended: on Scenario 3's inputs, `diff_content` returns the wrapped
structure record with message "Different number of rows" followed by an added record
for the content2 table, contributed by the backward pass because no content1 table has
the same row count. -/
theorem scenario3_actual_output :
    diff_content [tableItem2] [tableItem3] =
      [⟨"structure",
        DContent.tableData (.struct "Different number of rows") tableItem3⟩,
       ⟨"added", DContent.extracted (.table table3x1 tableItem3)⟩] := by
  decide

/-- Claim C4: `compare_tables` returns a structure record exactly when shapes mismatch
— differing row counts yield the single record `structure "Different number of rows"`
with no cell descent, while equal row counts with equal cell counts in every zipped
row yield a result with no structure record at all. -/
theorem compare_tables_structure_iff_shape (t1 t2 : TableNode) :
    (t1.tableRows.length ≠ t2.tableRows.length →
      compare_tables t1 t2 = [TableDiff.struct "Different number of rows"]) ∧
    (t1.tableRows.length = t2.tableRows.length →
      (∀ p ∈ List.zip t1.tableRows t2.tableRows,
        p.1.tableCells.length = p.2.tableCells.length) →
      ∀ d ∈ compare_tables t1 t2, tdtype d ≠ "structure") := by
  constructor
  · intro h
    simp [compare_tables, h]
  · intro h hc d hd
    rw [compare_tables, if_neg (by simp [h])] at hd
    exact rows_loop_no_struct 0 _ hc d hd

/-- Claim C4 witness: the 2x1-vs-3x1 pair yields the single structure record, and no
record of the same-shape `tableX` vs `tableY` comparison is a structure record. -/
theorem compare_tables_structure_iff_shape_witness :
    compare_tables table2x1 table3x1 = [TableDiff.struct "Different number of rows"] ∧
    tdtype (TableDiff.removed "X" 0 0) ≠ "structure" :=
  ⟨(compare_tables_structure_iff_shape table2x1 table3x1).1 (by decide),
   (compare_tables_structure_iff_shape tableX tableY).2 (by decide) (by decide)
     (TableDiff.removed "X" 0 0) (by decide)⟩

/-- The cell loop, written as a `flatMap` over the cell pairs enumerated from a given
start index. -/
theorem cells_loop_eq_flatMap (ri : Nat) (ci : Nat) (ps : List (TableCell × TableCell)) :
    cells_loop ri ci ps =
      (List.enumFrom ci ps).flatMap (fun cp =>
        if cell_text cp.2.1 ≠ cell_text cp.2.2 then
          (if cell_text cp.2.1 ≠ "" then
            [TableDiff.removed (cell_text cp.2.1) ri cp.1] else [])
            ++ (if cell_text cp.2.2 ≠ "" then
              [TableDiff.added (cell_text cp.2.2) ri cp.1] else [])
        else []) := by
  induction ps generalizing ci with
  | nil => rfl
  | cons p rest ih =>
    obtain ⟨c1, c2⟩ := p
    rw [List.enumFrom_cons, List.flatMap_cons, ← ih (ci + 1)]
    rfl

/-- The row loop under per-row equal cell counts, written as a `flatMap` over the row
pairs enumerated from a given start index. -/
theorem rows_loop_eq_flatMap (ri : Nat) (ps : List (TableRow × TableRow))
    (h : ∀ p ∈ ps, p.1.tableCells.length = p.2.tableCells.length) :
    rows_loop ri ps =
      (List.enumFrom ri ps).flatMap (fun rp =>
        (List.zip rp.2.1.tableCells rp.2.2.tableCells).enum.flatMap (fun cp =>
          if cell_text cp.2.1 ≠ cell_text cp.2.2 then
            (if cell_text cp.2.1 ≠ "" then
              [TableDiff.removed (cell_text cp.2.1) rp.1 cp.1] else [])
              ++ (if cell_text cp.2.2 ≠ "" then
                [TableDiff.added (cell_text cp.2.2) rp.1 cp.1] else [])
          else [])) := by
  induction ps generalizing ri with
  | nil => rfl
  | cons p rest ih =>
    obtain ⟨r1, r2⟩ := p
    rw [List.enumFrom_cons, List.flatMap_cons,
      ← ih (ri + 1) (fun q hq => h q (List.mem_cons_of_mem _ hq))]
    simp only [rows_loop]
    rw [if_neg (by simpa using h (r1, r2) (by simp)), List.enum_eq_enumFrom,
      cells_loop_eq_flatMap]

/-- Claim C5: for same-shape tables, `compare_tables` emits, per zipped cell position
`(r, c)` in lockstep order, a removed record exactly when the two cell texts differ and
`cell1`'s text is non-empty, then an added record exactly when they differ and
`cell2`'s text is non-empty; equal texts emit nothing. -/
theorem compare_tables_cell_records (t1 t2 : TableNode)
    (hrows : t1.tableRows.length = t2.tableRows.length)
    (hcells : ∀ p ∈ List.zip t1.tableRows t2.tableRows,
      p.1.tableCells.length = p.2.tableCells.length) :
    compare_tables t1 t2 =
      (List.zip t1.tableRows t2.tableRows).enum.flatMap (fun rp =>
        (List.zip rp.2.1.tableCells rp.2.2.tableCells).enum.flatMap (fun cp =>
          if cell_text cp.2.1 ≠ cell_text cp.2.2 then
            (if cell_text cp.2.1 ≠ "" then
              [TableDiff.removed (cell_text cp.2.1) rp.1 cp.1] else [])
              ++ (if cell_text cp.2.2 ≠ "" then
                [TableDiff.added (cell_text cp.2.2) rp.1 cp.1] else [])
          else [])) := by
  rw [compare_tables, if_neg (by simp [hrows]), List.enum_eq_enumFrom]
  exact rows_loop_eq_flatMap 0 _ hcells

/-- Claim C5 witness: on the same-shape pair `tableX` vs `tableY` the characterization
applies, and evaluating it gives a removed record for "X" then an added record for "Y"
at row 0, cell 0. -/
theorem compare_tables_cell_records_witness :
    compare_tables tableX tableY =
      (List.zip tableX.tableRows tableY.tableRows).enum.flatMap (fun rp =>
        (List.zip rp.2.1.tableCells rp.2.2.tableCells).enum.flatMap (fun cp =>
          if cell_text cp.2.1 ≠ cell_text cp.2.2 then
            (if cell_text cp.2.1 ≠ "" then
              [TableDiff.removed (cell_text cp.2.1) rp.1 cp.1] else [])
              ++ (if cell_text cp.2.2 ≠ "" then
                [TableDiff.added (cell_text cp.2.2) rp.1 cp.1] else [])
          else [])) ∧
    compare_tables tableX tableY =
      [TableDiff.removed "X" 0 0, TableDiff.added "Y" 0 0] :=
  ⟨compare_tables_cell_records tableX tableY rfl (by decide), by decide⟩

/-- The emission loop of `compare_text_content`, written as a `flatMap` over the
opcodes. -/
theorem ctc_loop_eq_flatMap (text1 text2 : String)
    (ops : List (OpTag × Nat × Nat × Nat × Nat)) :
    ctc_loop text1 text2 ops =
      ops.flatMap (fun oc =>
        match oc with
        | (OpTag.delete, i1, i2, _, _) =>
          [⟨"removed", strSlice text1 i1 i2, text1, (i1, i2)⟩]
        | (OpTag.insert, _, _, j1, j2) =>
          [⟨"added", strSlice text2 j1 j2, text2, (j1, j2)⟩]
        | (OpTag.replace, i1, i2, j1, j2) =>
          [⟨"removed", strSlice text1 i1 i2, text1, (i1, i2)⟩,
           ⟨"added", strSlice text2 j1 j2, text2, (j1, j2)⟩]
        | (OpTag.equal, _, _, _, _) => []) := by
  induction ops with
  | nil => rfl
  | cons op rest ih =>
    obtain ⟨tag, i1, i2, j1, j2⟩ := op
    rw [List.flatMap_cons, ← ih]
    cases tag <;> rfl

/-- Claim C6: `compare_text_content` maps each opcode in order — a `delete` run to one
removed record carrying the old slice, its full text and range; an `insert` run to one
added record carrying the new slice; a `replace` run to a removed record then an added
record; an `equal` run to nothing — with records appearing in opcode order. -/
theorem compare_text_content_opcode_map (text1 text2 : String) :
    compare_text_content text1 text2 =
      (get_opcodes text1.data text2.data).flatMap (fun oc =>
        match oc with
        | (OpTag.delete, i1, i2, _, _) =>
          [⟨"removed", strSlice text1 i1 i2, text1, (i1, i2)⟩]
        | (OpTag.insert, _, _, j1, j2) =>
          [⟨"added", strSlice text2 j1 j2, text2, (j1, j2)⟩]
        | (OpTag.replace, i1, i2, j1, j2) =>
          [⟨"removed", strSlice text1 i1 i2, text1, (i1, i2)⟩,
           ⟨"added", strSlice text2 j1 j2, text2, (j1, j2)⟩]
        | (OpTag.equal, _, _, _, _) => []) :=
  ctc_loop_eq_flatMap text1 text2 (get_opcodes text1.data text2.data)

/-- Claim C2 counterexample: self-comparison of a sequence of two paragraphs with
pairwise distinct texts is NOT empty — the forward pass matches "B" against the first
paragraph "A" and emits a removed/added pair. -/
theorem diff_content_self_distinct_not_empty :
    diff_content [parItem "A", parItem "B"] [parItem "A", parItem "B"] ≠ [] := by
  decide

/-- Claim C2 as amended: self-comparison is empty for every sequence in which any two
normalized elements of the same type are equal (first-match-wins compares every element
against the first same-type element, so this is what "unique enough" must mean). -/
theorem diff_content_self_empty (X : List DocumentItem)
    (h : ∀ a ∈ X.filterMap extract_text_from_item,
      ∀ b ∈ X.filterMap extract_text_from_item, etype a = etype b → a = b) :
    diff_content X X = [] := by
  rw [diff_content, List.append_eq_nil]
  constructor
  · rw [List.flatMap_eq_nil_iff]
    intro item1 hmem
    cases hex : extract_text_from_item item1 with
    | none => simp [forward_item, hex]
    | some p1 =>
      obtain ⟨q, hq⟩ := find_first_match_complete (etype p1) X item1 p1 hmem hex rfl
      obtain ⟨item', hmem', hex', het⟩ := find_first_match_sound _ _ _ hq
      have hqp : q = p1 :=
        h q (List.mem_filterMap.mpr ⟨item', hmem', hex'⟩)
          p1 (List.mem_filterMap.mpr ⟨item1, hmem, hex⟩) het
      subst hqp
      cases q with
      | paragraph t1 s1 o1 => simp [forward_item, hex, hq]
      | table d1 o1 => simp [forward_item, hex, hq, compare_tables_self]
  · rw [List.flatMap_eq_nil_iff]
    intro item2 hmem
    cases hex : extract_text_from_item item2 with
    | none => simp [backward_item, hex]
    | some p2 =>
      have hfound : found_in_content1 X p2 = true := by
        rw [found_in_content1, List.any_eq_true]
        refine ⟨item2, hmem, ?_⟩
        rw [hex]
        cases p2 <;> simp
      simp [backward_item, hex, hfound]

/-- Claim C2 witness: a sequence holding one paragraph and one table satisfies the
uniqueness hypothesis, and its self-comparison is empty. -/
theorem diff_content_self_empty_witness :
    diff_content [parItem "A", ⟨none, some tableX⟩] [parItem "A", ⟨none, some tableX⟩]
      = [] :=
  diff_content_self_empty [parItem "A", ⟨none, some tableX⟩] (by decide)

/-- A list matches itself along its whole length. -/
theorem matchLen_self (l : List Char) : matchLen l l = l.length := by
  induction l with
  | nil => rfl
  | cons x xs ih => simp [matchLen, ih]

/-- A common run is no longer than the first list. -/
theorem matchLen_le_left (xs ys : List Char) : matchLen xs ys ≤ xs.length := by
  induction xs generalizing ys with
  | nil => cases ys <;> simp [matchLen]
  | cons x xs ih =>
    cases ys with
    | nil => simp [matchLen]
    | cons y ys =>
      rw [matchLen]
      split
      · simpa using ih ys
      · simp

/-- A common run is no longer than the second list. -/
theorem matchLen_le_right (xs ys : List Char) : matchLen xs ys ≤ ys.length := by
  induction xs generalizing ys with
  | nil => cases ys <;> simp [matchLen]
  | cons x xs ih =>
    cases ys with
    | nil => simp [matchLen]
    | cons y ys =>
      rw [matchLen]
      split
      · simpa using ih ys
      · simp

/-- Folding `flmPick` never shrinks the incumbent's length. -/
theorem foldl_flmPick_init_le (cs : List (Nat × Nat × Nat)) (b : Nat × Nat × Nat) :
    b.2.2 ≤ (cs.foldl flmPick b).2.2 := by
  induction cs generalizing b with
  | nil => simp
  | cons c cs ih =>
    rw [List.foldl_cons]
    refine le_trans ?_ (ih (flmPick b c))
    rw [flmPick]
    split
    · omega
    · omega

/-- The fold result is at least as long as every candidate. -/
theorem foldl_flmPick_mem_le (cs : List (Nat × Nat × Nat)) (b c : Nat × Nat × Nat)
    (hmem : c ∈ cs) : c.2.2 ≤ (cs.foldl flmPick b).2.2 := by
  induction cs generalizing b with
  | nil => simp at hmem
  | cons d cs ih =>
    rw [List.foldl_cons]
    rcases List.mem_cons.mp hmem with rfl | hmem'
    · refine le_trans ?_ (foldl_flmPick_init_le cs (flmPick b c))
      rw [flmPick]
      split
      · omega
      · omega
    · exact ih (flmPick b d) hmem'

/-- The fold result is the initial value or one of the candidates. -/
theorem foldl_flmPick_mem (cs : List (Nat × Nat × Nat)) (b : Nat × Nat × Nat) :
    cs.foldl flmPick b = b ∨ cs.foldl flmPick b ∈ cs := by
  induction cs generalizing b with
  | nil => left; rfl
  | cons c cs ih =>
    rw [List.foldl_cons]
    rcases ih (flmPick b c) with h | h
    · rw [h, flmPick]
      split
      · right
        exact List.mem_cons_self _ _
      · left
        rfl
    · right
      exact List.mem_cons_of_mem _ h

/-- Every candidate's run length is bounded by the first list's length. -/
theorem flmCands_k_le (a b : List Char) (c : Nat × Nat × Nat) (h : c ∈ flmCands a b) :
    c.2.2 ≤ a.length := by
  simp only [flmCands, List.mem_flatMap, List.mem_map, List.mem_range] at h
  obtain ⟨i, hi, j, hj, rfl⟩ := h
  calc matchLen (a.drop i) (b.drop j) ≤ (a.drop i).length := matchLen_le_left _ _
    _ ≤ a.length := by rw [List.length_drop]; omega

/-- The diagonal full-length candidate is enumerated for a non-empty list. -/
theorem mem_flmCands_self (l : List Char) (hl : l ≠ []) :
    (0, 0, l.length) ∈ flmCands l l := by
  have hlen : 0 < l.length := List.length_pos.mpr hl
  simp only [flmCands, List.mem_flatMap, List.mem_map, List.mem_range]
  exact ⟨0, hlen, 0, hlen, by rw [List.drop_zero, matchLen_self]⟩

/-- On identical inputs, `find_longest_match` returns the whole string as one block. -/
theorem find_longest_match_self (l : List Char) :
    find_longest_match l l = (0, 0, l.length) := by
  by_cases hne : l = []
  · subst hne
    rfl
  · have hpos : 0 < l.length := List.length_pos.mpr hne
    have h1 : l.length ≤ ((flmCands l l).foldl flmPick (0, 0, 0)).2.2 :=
      foldl_flmPick_mem_le _ _ _ (mem_flmCands_self l hne)
    have h2 := foldl_flmPick_mem (flmCands l l) (0, 0, 0)
    rw [find_longest_match]
    obtain ⟨c, hc⟩ : ∃ c, (flmCands l l).foldl flmPick (0, 0, 0) = c := ⟨_, rfl⟩
    rw [hc] at h1 h2 ⊢
    rcases h2 with h2 | h2
    · subst h2
      have h0 : l.length ≤ 0 := h1
      omega
    · have h3 := flmCands_k_le l l c h2
      have h4 : c.2.2 = l.length := le_antisymm h3 h1
      simp only [flmCands, List.mem_flatMap, List.mem_map, List.mem_range] at h2
      obtain ⟨i, hi, j, hj, heq⟩ := h2
      have hk : matchLen (l.drop i) (l.drop j) = l.length := by
        rw [← heq] at h4
        exact h4
      have hi0 : i = 0 := by
        have := matchLen_le_left (l.drop i) (l.drop j)
        rw [List.length_drop] at this
        omega
      have hj0 : j = 0 := by
        have := matchLen_le_right (l.drop i) (l.drop j)
        rw [List.length_drop] at this
        omega
      subst hi0
      subst hj0
      rw [← heq, List.drop_zero, matchLen_self]

/-- The block recursion on two empty windows yields nothing. -/
theorem mblocks_nil (fuel alo blo : Nat) : mblocks fuel [] [] alo blo = [] := by
  cases fuel with
  | zero => rfl
  | succ f => rfl

/-- On identical non-empty windows, the block recursion yields the single
whole-window block. -/
theorem mblocks_self (fuel : Nat) (l : List Char) (alo blo : Nat) (hl : l ≠ []) :
    mblocks (fuel + 1) l l alo blo = [(alo, blo, l.length)] := by
  have hpos : 0 < l.length := List.length_pos.mpr hl
  simp only [mblocks, find_longest_match_self]
  rw [if_neg (by omega)]
  simp [mblocks_nil, List.drop_length]

/-- On identical non-empty inputs, the matching blocks are the whole string followed
by the sentinel. -/
theorem get_matching_blocks_self (l : List Char) (hl : l ≠ []) :
    get_matching_blocks l l = [(0, 0, l.length), (l.length, l.length, 0)] := by
  have hpos : 0 < l.length := List.length_pos.mpr hl
  rw [get_matching_blocks, mblocks_self (l.length + l.length) l 0 0 hl]
  rw [merge_loop, if_pos ⟨rfl, rfl⟩, merge_loop, if_pos (by omega)]
  simp

/-- Claim C7: diffing a string against itself emits no records — the alignment is a
single `equal` run, so `compare_text_content a a` is empty for every string `a`. -/
theorem compare_text_content_self (a : String) : compare_text_content a a = [] := by
  obtain ⟨l⟩ := a
  cases l with
  | nil => rfl
  | cons x xs =>
    have hn : (x :: xs).length ≠ 0 := by simp
    rw [compare_text_content, get_opcodes,
      show (String.mk (x :: xs)).data = x :: xs from rfl,
      get_matching_blocks_self (x :: xs) (by simp)]
    simp [opcodes_loop, ctc_loop, hn]

end App
